import Mathlib

/-!
# Formal model of `Pinger3.py`

A shallow embedding of the round-trip latency probe tool `src/Pinger3.py`:
the stats aggregator and probe loop (`run_ping`, lines 138-198), the
checkpoint register (`save_on_interrupt`, line 81, and `update_interim`,
lines 141-153), the history store (`save_results`, lines 23-36, and
`load_history`, lines 40-48), the comparator (`print_comparison`,
lines 51-66), the interrupt handler (`sigint_handler`, lines 83-90) and the
relevant part of `main` (lines 243-264).

Modelling conventions:
* Python floats are modelled as exact rationals (`ℚ`).
* JSON values are the inductive type `J`; a history file on disk is a
  `JsonFile`: absent, present but undecodable, or present with a parsed
  JSON value.
* Fallible Python code (an uncaught exception such as the `AttributeError`
  raised by `e.get` on a non-dict entry) is modelled with `Except Unit`.
* `datetime.now()` is modelled by an ambient clock `Nat → String` giving
  the timestamp string of the i-th call; the network transport `ping3.ping`
  is modelled by an ambient function `Nat → Outcome` giving the outcome of
  the i-th probe.
-/

/-- A JSON value, as produced by `json.load`.  Numbers are rationals. -/
inductive J where
  | null : J
  | bool (b : Bool) : J
  | num (q : ℚ) : J
  | str (s : String) : J
  | arr (l : List J) : J
  | obj (kvs : List (String × J)) : J

/-- The state of a history file on disk: absent, present but not decodable
as JSON (`json.load` raises `JSONDecodeError`), or present with a decoded
JSON value. -/
inductive JsonFile where
  | absent : JsonFile
  | malformed : JsonFile
  | content (v : J) : JsonFile

/-- `entries = [entries]` wrapping of lines 29-30 and 44-45: a decoded top
level value that is not a list is treated as a one-element list. -/
def asList (v : J) : List J :=
  match v with
  | .arr l => l
  | v => [v]

/-- The entry list a reader of the file obtains before any filtering: an
absent file yields `[]` (line 25 guard resp. the caught `FileNotFoundError`
of line 47), an undecodable file yields `[]` (the caught `JSONDecodeError`
of lines 31-32 resp. 47), and a decoded value is wrapped by `asList`.
This is the unfiltered load common to `save_results` and `load_history`. -/
def parseEntries (f : JsonFile) : List J :=
  match f with
  | .absent => []
  | .malformed => []
  | .content v => asList v

/-- `save_results` (lines 23-36): read the existing entries, append the new
record, rewrite the whole file as a JSON list. -/
def save_results (stats : J) (f : JsonFile) : JsonFile :=
  JsonFile.content (J.arr (parseEntries f ++ [stats]))

/-- Python `e.get('target') == target` for a dict entry `e` and a string
`target`: the looked-up value equals the string only when it is that very
string (a missing key gives `None`, which never equals a `str`). -/
def targetEq (v : Option J) (target : String) : Bool :=
  match v with
  | some (.str s) => s == target
  | _ => false

/-- One step of the list comprehension of line 46: `e.get('target')` raises
`AttributeError` when `e` is not a dict; otherwise the entry is kept iff
its `target` field equals the resolved address. -/
def targetMatches (e : J) (target : String) : Except Unit Bool :=
  match e with
  | .obj kvs => .ok (targetEq (kvs.lookup "target") target)
  | _ => .error ()

/-- The list comprehension `[e for e in entries if e.get('target') == target]`
of line 46, evaluated left to right, propagating the `AttributeError` of a
non-dict entry. -/
def filterByTarget (entries : List J) (target : String) : Except Unit (List J) :=
  match entries with
  | [] => .ok []
  | e :: rest =>
    match targetMatches e target with
    | .error u => .error u
    | .ok b =>
      match filterByTarget rest target with
      | .error u => .error u
      | .ok tail => .ok (if b then e :: tail else tail)

/-- `load_history` (lines 40-48): decode the file, wrap a non-list top
level, filter by target; `FileNotFoundError` and `JSONDecodeError` are
caught and yield `[]`, any other exception propagates. -/
def load_history (f : JsonFile) (target : String) : Except Unit (List J) :=
  match f with
  | .absent => .ok []
  | .malformed => .ok []
  | .content v => filterByTarget (asList v) target

/-- The outcome of one probe (`ping3.ping`, lines 158/171): a reply with a
round-trip time in seconds, or `None` on timeout. -/
inductive Outcome where
  | reply (secs : ℚ) : Outcome
  | timeout : Outcome

/-- The running counters of `run_ping` (line 139): latency samples in
milliseconds, lost count, sent count. -/
structure PingState where
  times : List ℚ
  lost : Nat
  sent : Nat
  deriving DecidableEq

def initState : PingState := ⟨[], 0, 0⟩

/-- Recording one probe outcome (lines 159-166 resp. 172-179): `sent` is
always incremented; a timeout increments `lost`; a reply appends
`result * 1000` to `times`. -/
def record (s : PingState) (o : Outcome) : PingState :=
  match o with
  | .timeout => { s with sent := s.sent + 1, lost := s.lost + 1 }
  | .reply secs => { s with sent := s.sent + 1, times := s.times ++ [secs * 1000] }

/-- Folding `record` over a list of outcomes, starting from zeroed
counters. -/
def runList (outs : List Outcome) : PingState :=
  outs.foldl record initState

/-- The aggregator state after the first `k` probes of a run whose i-th
probe has outcome `probe i` (the `for _ in range(count)` loop of
lines 170-181; also the state after `k` iterations of the unbounded
`while True` loop of lines 157-168). -/
def runBounded (probe : Nat → Outcome) (k : Nat) : PingState :=
  runList ((List.range k).map probe)

/-- The aggregate snapshot record, as built by `update_interim`
(lines 141-153) and by the final-stats block (lines 186-196), which are
textually identical computations. -/
structure Snapshot where
  target : String
  timestamp : String
  sent : Nat
  received : Int
  loss_percent : ℚ
  min : Option ℚ
  max : Option ℚ
  avg : Option ℚ
  deriving DecidableEq

/-- The snapshot computation shared by `update_interim` (lines 142-152) and
the final stats (lines 186-196): `received = sent - lost`,
`loss_percent = (lost/sent)*100` when `sent > 0` else `100`, and
`min`/`max`/`avg` from the sample list when non-empty, else `None`.
Python's `min`/`max` over a non-empty list are left folds of the binary
operations; `statistics.mean` is the exact sum divided by the length. -/
def mkStats (target timestamp : String) (s : PingState) : Snapshot :=
  { target := target
    timestamp := timestamp
    sent := s.sent
    received := (s.sent : Int) - (s.lost : Int)
    loss_percent := if 0 < s.sent then ((s.lost : ℚ) / (s.sent : ℚ)) * 100 else 100
    min := match s.times with
      | [] => none
      | t :: ts => some (ts.foldl Min.min t)
    max := match s.times with
      | [] => none
      | t :: ts => some (ts.foldl Max.max t)
    avg := match s.times with
      | [] => none
      | t :: ts => some ((t :: ts).sum / (((t :: ts).length : ℚ))) }

/-- The final stats returned by `run_ping` for a bounded run of `count`
probes (lines 186-198). -/
def run_ping (probe : Nat → Outcome) (clock : Nat → String) (target : String)
    (count : Nat) : Snapshot :=
  mkStats target (clock count) (runBounded probe count)

/-- The probe loop together with the checkpoint register: after every
completed probe, `update_interim` (line 153) overwrites
`save_on_interrupt['stats']` with a fresh snapshot of the current counters.
Returns the counters and the checkpoint slot after `k` probes; the slot is
`none` before the first probe completes (line 81). -/
def runCk (probe : Nat → Outcome) (clock : Nat → String) (target : String)
    (k : Nat) : PingState × Option Snapshot :=
  (List.range k).foldl
    (fun p i =>
      let s := record p.1 (probe i)
      (s, some (mkStats target (clock i) s)))
    (initState, none)

/-- The snapshot fields the comparator reads through `.get` (lines 59-60):
each of the four compared fields is a number or `None` (a key that is
missing in a history dict reads as `None` too, which is why all four are
optional on both sides). -/
structure CmpSnap where
  timestamp : String
  loss_percent : Option ℚ
  min : Option ℚ
  max : Option ℚ
  avg : Option ℚ
  deriving DecidableEq

/-- The comparator view of a snapshot produced by the aggregator:
`loss_percent` is always present there; `min`/`max`/`avg` are optional. -/
def snapToCmp (s : Snapshot) : CmpSnap :=
  { timestamp := s.timestamp
    loss_percent := some s.loss_percent
    min := s.min
    max := s.max
    avg := s.avg }

/-- One printed line of `print_comparison` / the messages around it. -/
inductive CompLine where
  | noPrev : CompLine
  | banner : CompLine
  | header (idx : Nat) (timestamp : String) : CompLine
  | noData (field : String) : CompLine
  | delta (field : String) (old cur diff : ℚ) : CompLine
  deriving DecidableEq

/-- The field list of line 58. -/
def compFields : List String := ["loss_percent", "min", "max", "avg"]

/-- `current.get(field)` resp. `prev.get(field)` of lines 59-60. -/
def getField (s : CmpSnap) (f : String) : Option ℚ :=
  if f = "loss_percent" then s.loss_percent
  else if f = "min" then s.min
  else if f = "max" then s.max
  else if f = "avg" then s.avg
  else none

/-- The body of the inner loop of lines 58-66: "no data available" when
either side is `None`, otherwise the old and new value and their
difference `diff = cur - old` (line 64). -/
def compareLine (current prev : CmpSnap) (f : String) : CompLine :=
  match getField current f, getField prev f with
  | some c, some o => .delta f o c (c - o)
  | _, _ => .noData f

/-- The `for idx, prev in enumerate(history, 1)` loop of lines 56-66: a
header per history entry followed by the four field lines. -/
def comparisonBody (current : CmpSnap) (idx : Nat) (history : List CmpSnap) :
    List CompLine :=
  match history with
  | [] => []
  | prev :: rest =>
    (CompLine.header idx prev.timestamp ::
      compFields.map (compareLine current prev)) ++
      comparisonBody current (idx + 1) rest

/-- `print_comparison` (lines 51-66): a single "No previous data for
comparison." message for an empty history, otherwise the banner and the
per-entry comparison blocks in history order, indexed from 1. -/
def print_comparison (current : CmpSnap) (history : List CmpSnap) :
    List CompLine :=
  if history = [] then [CompLine.noPrev]
  else CompLine.banner :: comparisonBody current 1 history

/-- The JSON dict a snapshot serialises to (the `stats` dict of
lines 142-152 as written by `json.dump`); an absent latency value becomes
`null`. -/
def optJ (v : Option ℚ) : J :=
  match v with
  | some q => .num q
  | none => .null

def snapToJ (s : Snapshot) : J :=
  .obj [("target", .str s.target),
        ("timestamp", .str s.timestamp),
        ("sent", .num s.sent),
        ("received", .num s.received),
        ("loss_percent", .num s.loss_percent),
        ("min", optJ s.min),
        ("max", optJ s.max),
        ("avg", optJ s.avg)]

/-- The effects of `sigint_handler` (lines 83-90): the file after the
handler ran, the comparison output if any, the snapshot displayed if any,
and the handler's exit code. -/
structure HandlerResult where
  fileAfter : JsonFile
  comparison : Option (List CompLine)
  displayed : Option Snapshot
  exitCode : Nat

/-- `sigint_handler` (lines 83-90): when the checkpoint slot holds a
snapshot, save it, print the comparison against the loaded history and the
current results; in all cases `sys.exit(0)`. -/
def sigint_handler (stats : Option Snapshot) (history : List CmpSnap)
    (f : JsonFile) : HandlerResult :=
  match stats with
  | some current =>
    { fileAfter := save_results (snapToJ current) f
      comparison := some (print_comparison (snapToCmp current) history)
      displayed := some current
      exitCode := 0 }
  | none =>
    { fileAfter := f
      comparison := none
      displayed := none
      exitCode := 0 }

/-- The run portion of `main` (lines 243-264) for a bounded run, with the
compare path equal to the output path (the default: line 239): the history
is loaded from the file BEFORE the probe loop runs (line 243), the probe
loop produces the final stats, and `save_results` appends them to the same
file (line 262); `print_comparison` is then called with the history loaded
at line 243 (line 263).  An exception from `load_history` aborts the run
before any probe. -/
def mainFlow (probe : Nat → Outcome) (clock : Nat → String) (dest : String)
    (count : Nat) (f : JsonFile) : Except Unit (List J × Snapshot × JsonFile) :=
  match load_history f dest with
  | .error u => .error u
  | .ok history =>
    let stats := run_ping probe clock dest count
    let fileAfter := save_results (snapToJ stats) f
    .ok (history, stats, fileAfter)

/-! ## Basic facts about the probe loop fold -/

theorem foldl_record_sent (outs : List Outcome) (s : PingState) :
    (outs.foldl record s).sent = s.sent + outs.length := by
  induction outs generalizing s with
  | nil => simp
  | cons o rest ih =>
    simp only [List.foldl_cons, ih]
    cases o <;> simp [record] <;> omega

theorem foldl_record_lost_le (outs : List Outcome) (s : PingState)
    (h : s.lost ≤ s.sent) :
    (outs.foldl record s).lost ≤ (outs.foldl record s).sent := by
  induction outs generalizing s with
  | nil => exact h
  | cons o rest ih =>
    simp only [List.foldl_cons]
    apply ih
    cases o <;> simp [record] <;> omega

/-- The millisecond latency an outcome contributes to `times`, if any. -/
def latOf (o : Outcome) : Option ℚ :=
  match o with
  | .reply secs => some (secs * 1000)
  | .timeout => none

theorem foldl_record_times (outs : List Outcome) (s : PingState) :
    (outs.foldl record s).times = s.times ++ outs.filterMap latOf := by
  induction outs generalizing s with
  | nil => simp
  | cons o rest ih =>
    simp only [List.foldl_cons, ih]
    cases o <;> simp [record, latOf]

theorem runBounded_sent (probe : Nat → Outcome) (k : Nat) :
    (runBounded probe k).sent = k := by
  simp [runBounded, runList, foldl_record_sent, initState]

theorem runBounded_lost_le (probe : Nat → Outcome) (k : Nat) :
    (runBounded probe k).lost ≤ (runBounded probe k).sent :=
  foldl_record_lost_le _ _ (by simp [initState])

theorem runBounded_times (probe : Nat → Outcome) (k : Nat) :
    (runBounded probe k).times = ((List.range k).map probe).filterMap latOf := by
  simpa [initState] using
    foldl_record_times ((List.range k).map probe) initState

/-! ## C1 -/

/-- C1: every snapshot produced by the aggregator — the interim one taken
after each completed probe and the final one at loop termination, both of
which are `mkStats` applied to a state reachable by the probe loop — has
`loss_percent = 100` exactly when `sent = 0`, and otherwise
`loss_percent = 100 * (sent - received) / sent`. -/
theorem loss_percent_rule (probe : Nat → Outcome) (target ts : String) (k : Nat) :
    (mkStats target ts (runBounded probe k)).loss_percent =
      if (mkStats target ts (runBounded probe k)).sent = 0 then (100 : ℚ)
      else 100 * (((mkStats target ts (runBounded probe k)).sent : ℚ) -
          ((mkStats target ts (runBounded probe k)).received : ℚ)) /
        ((mkStats target ts (runBounded probe k)).sent : ℚ) := by
  set s := runBounded probe k with hs
  rcases Nat.eq_zero_or_pos s.sent with h0 | hpos
  · simp [mkStats, h0]
  · have hne : s.sent ≠ 0 := Nat.pos_iff_ne_zero.mp hpos
    have hq : (s.sent : ℚ) ≠ 0 := by exact_mod_cast hne
    simp only [mkStats, hpos, if_true, hne, if_false]
    push_cast
    field_simp
    ring

/-! ## C2 -/

/-- C2: after every recorded probe the aggregate state satisfies
`received = sent - lost` and `0 ≤ received ≤ sent`, and the snapshot built
from that state carries exactly these values. -/
theorem received_invariant (probe : Nat → Outcome) (target ts : String) (k : Nat) :
    (mkStats target ts (runBounded probe k)).sent = (runBounded probe k).sent ∧
    (mkStats target ts (runBounded probe k)).received =
      ((runBounded probe k).sent : Int) - ((runBounded probe k).lost : Int) ∧
    0 ≤ (mkStats target ts (runBounded probe k)).received ∧
    (mkStats target ts (runBounded probe k)).received ≤
      ((mkStats target ts (runBounded probe k)).sent : Int) := by
  have hls := runBounded_lost_le probe k
  refine ⟨rfl, rfl, ?_, ?_⟩ <;> (simp [mkStats]; try omega)

/-! ## C4 -/

/-- C4: `load_history` never raises for a missing file (the caught
`FileNotFoundError`) or for a file whose content cannot be decoded as JSON
(the caught `JSONDecodeError`); in both cases it returns the empty list
rather than an error. -/
theorem load_history_total_on_missing_or_malformed (target : String) :
    load_history JsonFile.absent target = .ok [] ∧
      load_history JsonFile.malformed target = .ok [] :=
  ⟨rfl, rfl⟩

/-! ## C5 -/

theorem parseEntries_save (x : J) (f : JsonFile) :
    parseEntries (save_results x f) = parseEntries f ++ [x] := by
  cases f <;> rfl

/-- C5: `save_results` is monotonic: from any starting file state, a
sequence of appends leaves the file's unfiltered entry list equal to the
old entry list with the new snapshots appended at the end in call order —
so N appends add exactly N entries and never rewrite or deduplicate the
prior ones. -/
theorem append_monotonic (f : JsonFile) (ss : List J) :
    parseEntries (ss.foldl (fun g s => save_results s g) f) =
      parseEntries f ++ ss := by
  induction ss generalizing f with
  | nil => simp
  | cons s rest ih =>
    simp only [List.foldl_cons, ih, parseEntries_save]
    simp

/-! ## C8 -/

/-- C8: a run with `count = 0` performs no probe (the loop state is the
initial state) and yields a final snapshot with `sent = 0`,
`received = 0`, `loss_percent = 100` and no latency statistics; the
`sent > 0` guard means no division by zero is attempted. -/
theorem count_zero_run (probe : Nat → Outcome) (clock : Nat → String)
    (target : String) :
    runBounded probe 0 = initState ∧
      run_ping probe clock target 0 =
        { target := target, timestamp := clock 0, sent := 0, received := 0,
          loss_percent := 100, min := none, max := none, avg := none } :=
  ⟨rfl, rfl⟩

/-! ## C3 -/

theorem runBounded_succ (probe : Nat → Outcome) (n : Nat) :
    runBounded probe (n + 1) = record (runBounded probe n) (probe n) := by
  simp [runBounded, runList, List.range_succ]

theorem runCk_spec (probe : Nat → Outcome) (clock : Nat → String)
    (target : String) (k : Nat) :
    (runCk probe clock target k).1 = runBounded probe k ∧
    (runCk probe clock target k).2 =
      if k = 0 then none
      else some (mkStats target (clock (k - 1)) (runBounded probe k)) := by
  induction k with
  | zero => exact ⟨rfl, rfl⟩
  | succ n ih =>
    have hstep : runCk probe clock target (n + 1) =
        (record (runCk probe clock target n).1 (probe n),
          some (mkStats target (clock n)
            (record (runCk probe clock target n).1 (probe n)))) := by
      simp [runCk, List.range_succ]
    rw [hstep, ih.1, ← runBounded_succ]
    exact ⟨rfl, by simp⟩

/-- C3: after the k-th completed probe (k ≥ 1) of a run, the checkpoint
slot holds the snapshot of the state after exactly those k probes — so an
interruption at that moment saves a snapshot with `sent = k` — and the
save performed on it leaves the history file with exactly one more entry
than before. -/
theorem checkpoint_after_k_probes (probe : Nat → Outcome)
    (clock : Nat → String) (target : String) (k : Nat) (f : JsonFile)
    (hk : 1 ≤ k) :
    (runCk probe clock target k).2 =
      some (mkStats target (clock (k - 1)) (runBounded probe k)) ∧
    (mkStats target (clock (k - 1)) (runBounded probe k)).sent = k ∧
    (parseEntries (save_results
        (snapToJ (mkStats target (clock (k - 1)) (runBounded probe k))) f)).length =
      (parseEntries f).length + 1 := by
  have hk0 : k ≠ 0 := by omega
  refine ⟨?_, ?_, ?_⟩
  · rw [(runCk_spec probe clock target k).2]
    simp [hk0]
  · simpa [mkStats] using runBounded_sent probe k
  · rw [parseEntries_save]
    simp

/-- Witness for C3 at a concrete run: one probe, which times out. -/
theorem checkpoint_after_k_probes_witness :
    (mkStats "h" "t" (runBounded (fun _ => Outcome.timeout) 1)).sent = 1 :=
  (checkpoint_after_k_probes (fun _ => Outcome.timeout) (fun _ => "t") "h" 1
    JsonFile.absent (by decide)).2.1

/-! ## C6 -/

theorem foldl_min_le (ts : List ℚ) (t : ℚ) :
    ∀ x ∈ t :: ts, List.foldl Min.min t ts ≤ x := by
  induction ts generalizing t with
  | nil =>
    intro x hx
    simp only [List.mem_singleton] at hx
    simp [hx]
  | cons u us ih =>
    intro x hx
    simp only [List.mem_cons] at hx
    simp only [List.foldl_cons]
    rcases hx with rfl | rfl | hx
    · exact le_trans (ih (Min.min x u) (Min.min x u) (by simp)) (min_le_left x u)
    · exact le_trans (ih (Min.min t x) (Min.min t x) (by simp)) (min_le_right t x)
    · exact ih (Min.min t u) x (by simp [hx])

theorem le_foldl_max (ts : List ℚ) (t : ℚ) :
    ∀ x ∈ t :: ts, x ≤ List.foldl Max.max t ts := by
  induction ts generalizing t with
  | nil =>
    intro x hx
    simp only [List.mem_singleton] at hx
    simp [hx]
  | cons u us ih =>
    intro x hx
    simp only [List.mem_cons] at hx
    simp only [List.foldl_cons]
    rcases hx with rfl | rfl | hx
    · exact le_trans (le_max_left x u) (ih (Max.max x u) (Max.max x u) (by simp))
    · exact le_trans (le_max_right t x) (ih (Max.max t x) (Max.max t x) (by simp))
    · exact ih (Max.max t u) x (by simp [hx])

theorem mul_length_le_sum (l : List ℚ) (m : ℚ) (h : ∀ x ∈ l, m ≤ x) :
    m * l.length ≤ l.sum := by
  induction l with
  | nil => simp
  | cons x xs ih =>
    have hx : m ≤ x := h x (by simp)
    have hxs := ih (fun y hy => h y (by simp [hy]))
    simp only [List.sum_cons, List.length_cons]
    push_cast
    linarith

theorem sum_le_mul_length (l : List ℚ) (m : ℚ) (h : ∀ x ∈ l, x ≤ m) :
    l.sum ≤ m * l.length := by
  induction l with
  | nil => simp
  | cons x xs ih =>
    have hx : x ≤ m := h x (by simp)
    have hxs := ih (fun y hy => h y (by simp [hy]))
    simp only [List.sum_cons, List.length_cons]
    push_cast
    linarith

/-- C6: in every snapshot the aggregator produces, `min`, `max` and `avg`
are all absent iff no probe of the run got a reply; when present, `avg` is
the arithmetic mean of the recorded latency samples and
`min ≤ avg ≤ max`. -/
theorem latency_stats_sound (probe : Nat → Outcome) (target ts : String)
    (k : Nat) :
    (((mkStats target ts (runBounded probe k)).min = none ∧
        (mkStats target ts (runBounded probe k)).max = none ∧
        (mkStats target ts (runBounded probe k)).avg = none) ↔
      ∀ i, i < k → probe i = Outcome.timeout) ∧
    ∀ mn mx av,
      (mkStats target ts (runBounded probe k)).min = some mn →
      (mkStats target ts (runBounded probe k)).max = some mx →
      (mkStats target ts (runBounded probe k)).avg = some av →
      av = (runBounded probe k).times.sum /
          ((runBounded probe k).times.length : ℚ) ∧
        mn ≤ av ∧ av ≤ mx := by
  have htimes := runBounded_times probe k
  constructor
  · constructor
    · intro hnone i hi
      have hnil : (runBounded probe k).times = [] := by
        rcases hts : (runBounded probe k).times with _ | ⟨t, tsl⟩
        · rfl
        · exfalso
          have := hnone.1
          rw [mkStats] at this
          simp [hts] at this
      rw [htimes] at hnil
      have hlat : latOf (probe i) = none := by
        have hmem : probe i ∈ (List.range k).map probe :=
          List.mem_map_of_mem probe (List.mem_range.mpr hi)
        exact (List.filterMap_eq_nil_iff.mp hnil) (probe i) hmem
      cases hpi : probe i with
      | reply secs => rw [hpi] at hlat; simp [latOf] at hlat
      | timeout => rfl
    · intro hall
      have hnil : (runBounded probe k).times = [] := by
        rw [htimes]
        apply List.filterMap_eq_nil_iff.mpr
        intro o ho
        rcases List.mem_map.mp ho with ⟨i, hi, rfl⟩
        rw [hall i (List.mem_range.mp hi)]
        rfl
      simp [mkStats, hnil]
  · intro mn mx av hmn hmx hav
    rcases hts : (runBounded probe k).times with _ | ⟨t, tsl⟩
    · rw [mkStats] at hmn
      simp [hts] at hmn
    · rw [mkStats] at hmn hmx hav
      simp only [hts] at hmn hmx hav
      simp only [Option.some.injEq] at hmn hmx hav
      have hlen : (0 : ℚ) < ((t :: tsl).length : ℚ) := by
        have : 0 < (t :: tsl).length := by simp
        exact_mod_cast this
      have hminmem := foldl_min_le tsl t
      have hmaxmem := le_foldl_max tsl t
      have hlow : mn * ((t :: tsl).length : ℚ) ≤ (t :: tsl).sum := by
        apply mul_length_le_sum
        intro x hx
        rw [← hmn]
        exact hminmem x hx
      have hhigh : (t :: tsl).sum ≤ mx * ((t :: tsl).length : ℚ) := by
        apply sum_le_mul_length
        intro x hx
        rw [← hmx]
        exact hmaxmem x hx
      refine ⟨hav.symm, ?_, ?_⟩
      · rw [← hav]
        rw [le_div_iff₀ hlen]
        exact hlow
      · rw [← hav]
        rw [div_le_iff₀ hlen]
        exact hhigh

/-- Witness for C6 at a concrete run: one probe replying in one second,
giving the single sample `[1000]`, mean `1000` and
`min = avg = max = 1000`. -/
theorem latency_stats_sound_witness :
    (1000 : ℚ) = (runBounded (fun _ => Outcome.reply 1) 1).times.sum /
        ((runBounded (fun _ => Outcome.reply 1) 1).times.length : ℚ) ∧
      (1000 : ℚ) ≤ 1000 ∧ (1000 : ℚ) ≤ 1000 :=
  (latency_stats_sound (fun _ => Outcome.reply 1) "h" "t" 1).2 1000 1000 1000
    (by norm_num [mkStats, runBounded, runList, record, initState])
    (by norm_num [mkStats, runBounded, runList, record, initState])
    (by norm_num [mkStats, runBounded, runList, record, initState])

/-! ## C7 -/

/-- Modelled from the spec: one field line per §4.5 — the delta
`current.field - history_entry.field` when both sides are present,
otherwise "no data available" for that field. -/
def specFieldDelta (f : String) (cur old : Option ℚ) : CompLine :=
  match cur, old with
  | some c, some o => .delta f o c (c - o)
  | _, _ => .noData f

/-- Modelled from the spec: the four-field breakdown of one historical
entry, in the order `loss_percent`, `min`, `max`, `avg`. -/
def specEntry (current prev : CmpSnap) : List CompLine :=
  [specFieldDelta "loss_percent" current.loss_percent prev.loss_percent,
   specFieldDelta "min" current.min prev.min,
   specFieldDelta "max" current.max prev.max,
   specFieldDelta "avg" current.avg prev.avg]

/-- Modelled from the spec: the whole comparison — a single "no previous
data" message for an empty history, otherwise one block per historical
entry in loaded (file) order, indexed from 1. -/
def specComparison (current : CmpSnap) (history : List CmpSnap) :
    List CompLine :=
  if history = [] then [CompLine.noPrev]
  else CompLine.banner ::
    ((history.enumFrom 1).map (fun p =>
      CompLine.header p.1 p.2.timestamp :: specEntry current p.2)).flatten

theorem compFields_map_eq (current prev : CmpSnap) :
    compFields.map (compareLine current prev) = specEntry current prev := rfl

theorem comparisonBody_eq (current : CmpSnap) (idx : Nat)
    (history : List CmpSnap) :
    comparisonBody current idx history =
      ((history.enumFrom idx).map (fun p =>
        CompLine.header p.1 p.2.timestamp :: specEntry current p.2)).flatten := by
  induction history generalizing idx with
  | nil => rfl
  | cons prev rest ih =>
    simp only [comparisonBody, List.enumFrom, List.map_cons, List.flatten_cons,
      compFields_map_eq, ih]

/-- C7: the comparator's output is exactly the spec's description — for an
empty history a single "no previous data" message, otherwise per
historical entry in loaded order the per-field deltas
`current.field - history_entry.field` where both sides are present and
"no data available" where either is absent. -/
theorem comparison_matches_spec (current : CmpSnap) (history : List CmpSnap) :
    print_comparison current history = specComparison current history := by
  unfold print_comparison specComparison
  rcases eq_or_ne history [] with rfl | h
  · simp
  · simp only [h, if_false, comparisonBody_eq]

/-! ## C9 -/

/-- Counterexample to C9 as stated: at a concrete interruption — a
checkpoint snapshot present, empty loaded history, absent output file —
the handler's `sys.exit(0)` (line 90) makes the exit status `0`, not
non-zero. -/
theorem sigint_exit_status_not_nonzero :
    ¬ (sigint_handler (some (mkStats "h" "t" initState)) [] JsonFile.absent).exitCode ≠ 0 := by
  intro h
  exact h rfl

/-- C9 (amended): when the interruption arrives with a checkpoint snapshot
present, the handler itself performs the save (the file gains the
snapshot), the comparison against the loaded history and the display of
the current results, and terminates the process with exit status `0`. -/
theorem sigint_handler_saves_and_exits_zero (stats : Option Snapshot)
    (s : Snapshot) (history : List CmpSnap) (f : JsonFile)
    (h : stats = some s) :
    (sigint_handler stats history f).exitCode = 0 ∧
    (sigint_handler stats history f).fileAfter = save_results (snapToJ s) f ∧
    (sigint_handler stats history f).comparison =
      some (print_comparison (snapToCmp s) history) ∧
    (sigint_handler stats history f).displayed = some s := by
  subst h
  exact ⟨rfl, rfl, rfl, rfl⟩

/-- Witness for the amended C9 at a concrete interruption. -/
theorem sigint_handler_saves_and_exits_zero_witness :
    (sigint_handler (some (mkStats "a" "t" initState)) [] JsonFile.absent).exitCode = 0 ∧
    (sigint_handler (some (mkStats "a" "t" initState)) [] JsonFile.absent).fileAfter =
      save_results (snapToJ (mkStats "a" "t" initState)) JsonFile.absent ∧
    (sigint_handler (some (mkStats "a" "t" initState)) [] JsonFile.absent).comparison =
      some (print_comparison (snapToCmp (mkStats "a" "t" initState)) []) ∧
    (sigint_handler (some (mkStats "a" "t" initState)) [] JsonFile.absent).displayed =
      some (mkStats "a" "t" initState) :=
  sigint_handler_saves_and_exits_zero (some (mkStats "a" "t" initState))
    (mkStats "a" "t" initState) [] JsonFile.absent rfl

/-! ## C10 -/

theorem filterByTarget_mem (entries : List J) (target : String) (r : List J)
    (h : filterByTarget entries target = .ok r) : ∀ x ∈ r, x ∈ entries := by
  induction entries generalizing r with
  | nil =>
    simp only [filterByTarget, Except.ok.injEq] at h
    subst h
    simp
  | cons e rest ih =>
    rw [filterByTarget] at h
    split at h
    · exact absurd h (by simp)
    · split at h
      · exact absurd h (by simp)
      · rename_i x1 b hm x2 tail hr
        simp only [Except.ok.injEq] at h
        subst h
        intro x hx
        have htail : x ∈ tail → x ∈ e :: rest := fun hx =>
          List.mem_cons_of_mem e (ih tail hr x hx)
        cases b with
        | true =>
          rcases List.mem_cons.mp (by simpa using hx) with rfl | hx
          · exact List.mem_cons_self x rest
          · exact htail hx
        | false => exact htail (by simpa using hx)

theorem load_history_sub (f : JsonFile) (target : String) (h : List J)
    (hl : load_history f target = .ok h) : ∀ x ∈ h, x ∈ parseEntries f := by
  cases f with
  | absent =>
    simp only [load_history, Except.ok.injEq] at hl
    subst hl; simp
  | malformed =>
    simp only [load_history, Except.ok.injEq] at hl
    subst hl; simp
  | content v => exact filterByTarget_mem (asList v) target h hl

/-- C10: in a run of `main` whose compare path equals the output path, the
history used for the comparison is the one loaded from the file before
any probe was issued; hence the record the run itself appends — unless an
identical entry was already on disk beforehand — never appears in the
run's own comparison. -/
theorem history_loaded_before_append (probe : Nat → Outcome)
    (clock : Nat → String) (dest : String) (count : Nat) (f : JsonFile)
    (h : List J) (s : Snapshot) (f1 : JsonFile)
    (hm : mainFlow probe clock dest count f = .ok (h, s, f1)) :
    load_history f dest = .ok h ∧
    s = run_ping probe clock dest count ∧
    f1 = save_results (snapToJ s) f ∧
    (∀ x ∈ h, x ∈ parseEntries f) ∧
    (snapToJ s ∉ parseEntries f → snapToJ s ∉ h) := by
  rw [mainFlow] at hm
  split at hm
  · exact absurd hm (by simp)
  · rename_i hist hl
    simp only [Except.ok.injEq, Prod.mk.injEq] at hm
    obtain ⟨rfl, rfl, rfl⟩ := hm
    have hsub := load_history_sub f dest hist hl
    exact ⟨hl, rfl, rfl, hsub, fun hnot hin => hnot (hsub _ hin)⟩

/-- Witness for C10 at a concrete run: `count = 0` against an absent
history file; the freshly appended record is not in the (empty) comparison
history. -/
theorem history_loaded_before_append_witness :
    snapToJ (run_ping (fun _ => Outcome.timeout) (fun _ => "t") "h" 0) ∉
      ([] : List J) :=
  (history_loaded_before_append (fun _ => Outcome.timeout) (fun _ => "t") "h" 0
    JsonFile.absent []
    (run_ping (fun _ => Outcome.timeout) (fun _ => "t") "h" 0)
    (save_results (snapToJ (run_ping (fun _ => Outcome.timeout) (fun _ => "t") "h" 0))
      JsonFile.absent)
    rfl).2.2.2.2 (by simp [parseEntries])
